import Mathlib

/-!
Shallow embedding of the inventory-alert bot (`src/main.rs`) and proofs about
its specification.

Modelling conventions:
* Rust `String` / `&str` values are embedded as `List Char` (named `Str`);
  `str` converts a Lean string literal.
* `regex::Regex` is opaque to this program: it is created from a pattern
  string and consulted only through `is_match`.  We embed a compiled regex as
  its pattern string and thread an abstract engine
  `rmatch : Str → Str → Bool` (pattern → body → does it match anywhere)
  through every function that evaluates rules.
* The one state file is embedded as `Option Yaml`: `none` means the file is
  unreadable, `some y` is its parsed YAML document.  `serde_yaml` text
  rendering is abstracted at the YAML-value level: `toYamlStates` /
  `fromYamlStates` embed the derived `Serialize` / `Deserialize` instances
  over that value type (externally tagged enums become single-entry maps, the
  `rename_all = "camelCase"` attribute on `Match` gives the tags `regex`,
  `notRegex`, `contains`, `doesNotContain`; `InventoryState` has no rename
  attribute, so its keys are the Rust field names).
* Network fetches are an oracle `fetch : Str → Option Str` (url → body, or
  `none` for any `reqwest` failure, including client construction).
* The Telegram send is an oracle `send : Str → Bool` (message → success).
* Side effects are recorded as an `Event` trace: file reads, url fetches,
  file writes, message sends.
* Error payloads (`std::io::Error`, `serde_yaml::Error`, `reqwest::Error`)
  are opaque external values; the embedding keeps only the variant.
-/

/-- Embedded Rust string: a list of characters. -/
abbrev Str : Type := List Char

/-- Conversion from a Lean string literal to the embedded string type. -/
def str (s : String) : Str := s.toList

/-- Embedding of `str::contains` from the Rust standard library: `needle` is a
substring of `hay`.  Scans left to right, checking a prefix match at every
position. -/
def containsSub (needle : Str) : Str → Bool
  | [] => decide (needle = [])
  | c :: rest => needle.isPrefixOf (c :: rest) || containsSub needle rest

/-- Embedding of `str::replace` from the Rust standard library for a
non-empty pattern: replace every leftmost non-overlapping occurrence of
`pat` by `rep`.  (The program only calls it with the one-character pattern
`"-"`.) -/
def replaceAll (pat rep : Str) : Str → Str
  | [] => []
  | c :: rest =>
    if h : pat ≠ [] ∧ pat.isPrefixOf (c :: rest) then
      rep ++ replaceAll pat rep ((c :: rest).drop pat.length)
    else
      c :: replaceAll pat rep rest
termination_by s => s.length
decreasing_by
  · simp only [List.length_drop, List.length_cons]
    have hp : 1 ≤ pat.length := by
      cases hpat : pat with
      | nil => exact absurd hpat h.1
      | cons a l => simp
    omega
  · simp

/-- `enum Match` from `src/main.rs` (lines 25‑34): the four text-match rule
variants.  A compiled `Regex` is embedded as its pattern string. -/
inductive Match : Type where
  | Regex (val : Str)
  | NotRegex (val : Str)
  | Contains (val : Str)
  | DoesNotContain (val : Str)
deriving DecidableEq

/-- `struct InventoryState` from `src/main.rs` (lines 36‑43). -/
structure InventoryState : Type where
  product : Str
  vendor : Str
  url : Str
  in_stock : Bool
  «matches» : List Match
deriving DecidableEq

/-- `enum MatchUpdate` from `src/main.rs` (lines 45‑48). -/
inductive MatchUpdate : Type where
  | NoChange
  | Updated (states : List InventoryState)
deriving DecidableEq

/-- `enum Error` from `src/main.rs` (lines 50‑55); the wrapped external error
values are opaque, so only the variant is kept. -/
inductive Error : Type where
  | IOError
  | SerdeYaml
  | Reqwest
deriving DecidableEq

/-- The body of the closure passed to `state.matches.iter().all(..)` in
`update_state` (`src/main.rs` lines 94‑99): evaluate one rule against a
fetched body, given the regex engine `rmatch`. -/
def eval_match (rmatch : Str → Str → Bool) (body : Str) : Match → Bool
  | Match.Regex val => rmatch val body
  | Match.NotRegex val => !(rmatch val body)
  | Match.Contains val => containsSub val body
  | Match.DoesNotContain val => !(containsSub val body)

/-- `state.matches.iter().all(..)` in `update_state` (`src/main.rs` line 94):
the in-stock classification of one item is the conjunction of all its rules,
in declared order. -/
def compute_in_stock (rmatch : Str → Str → Bool) (rules : List Match)
    (body : Str) : Bool :=
  rules.all (eval_match rmatch body)

/-- A YAML value, the data model underneath `serde_yaml` as this program uses
it: string scalars, boolean scalars, sequences and mappings. -/
inductive Yaml : Type where
  | strv (s : Str)
  | boolv (b : Bool)
  | seqv (items : List Yaml)
  | mapv (entries : List (Str × Yaml))

/-- Derived `Serialize` for `Match`: an externally tagged enum is a
single-entry map, tags are camelCase by the `rename_all` attribute, and
`serde_regex` writes a regex as its pattern string. -/
def toYamlMatch : Match → Yaml
  | Match.Regex val => Yaml.mapv [(str "regex", Yaml.strv val)]
  | Match.NotRegex val => Yaml.mapv [(str "notRegex", Yaml.strv val)]
  | Match.Contains val => Yaml.mapv [(str "contains", Yaml.strv val)]
  | Match.DoesNotContain val => Yaml.mapv [(str "doesNotContain", Yaml.strv val)]

/-- Derived `Deserialize` for `Match`. -/
def fromYamlMatch : Yaml → Option Match
  | Yaml.mapv [(tag, Yaml.strv val)] =>
    if tag = str "regex" then some (Match.Regex val)
    else if tag = str "notRegex" then some (Match.NotRegex val)
    else if tag = str "contains" then some (Match.Contains val)
    else if tag = str "doesNotContain" then some (Match.DoesNotContain val)
    else none
  | _ => none

/-- Decode a sequence of rules, failing if any element fails. -/
def fromYamlMatches : List Yaml → Option (List Match)
  | [] => some []
  | y :: rest =>
    match fromYamlMatch y, fromYamlMatches rest with
    | some m, some ms => some (m :: ms)
    | _, _ => none

/-- Derived `Serialize` for `InventoryState`: a map from the Rust field names
(the struct has no rename attribute) to the field values. -/
def toYamlState (s : InventoryState) : Yaml :=
  Yaml.mapv
    [ (str "product", Yaml.strv s.product)
    , (str "vendor", Yaml.strv s.vendor)
    , (str "url", Yaml.strv s.url)
    , (str "in_stock", Yaml.boolv s.in_stock)
    , (str "matches", Yaml.seqv (s.«matches».map toYamlMatch)) ]

/-- Derived `Deserialize` for `InventoryState`: look each field up by name
(field order in the document does not matter to serde). -/
def fromYamlState : Yaml → Option InventoryState
  | Yaml.mapv entries =>
    match List.lookup (str "product") entries, List.lookup (str "vendor") entries,
        List.lookup (str "url") entries, List.lookup (str "in_stock") entries,
        List.lookup (str "matches") entries with
    | some (Yaml.strv product), some (Yaml.strv vendor), some (Yaml.strv url),
        some (Yaml.boolv in_stock), some (Yaml.seqv ms) =>
      (fromYamlMatches ms).map
        (fun rules => InventoryState.mk product vendor url in_stock rules)
    | _, _, _, _, _ => none
  | _ => none

/-- Serialize a whole collection (`serde_yaml::to_string(&states)` at the
value level): a `Vec` is a YAML sequence. -/
def toYamlStates (states : List InventoryState) : Yaml :=
  Yaml.seqv (states.map toYamlState)

/-- Decode a sequence of items, failing if any element fails. -/
def fromYamlStatesList : List Yaml → Option (List InventoryState)
  | [] => some []
  | y :: rest =>
    match fromYamlState y, fromYamlStatesList rest with
    | some s, some ss => some (s :: ss)
    | _, _ => none

/-- Deserialize a whole collection (`serde_yaml::from_str::<Vec<InventoryState>>`
at the value level). -/
def fromYamlStates : Yaml → Option (List InventoryState)
  | Yaml.seqv items => fromYamlStatesList items
  | _ => none

/-- One observable side effect of the process: reading the state file,
fetching a url, writing the state file, or attempting a Telegram send (with
the success flag the sink returned). -/
inductive Event : Type where
  | read
  | fetchUrl (url : Str)
  | write (y : Yaml)
  | send (text : Str) (ok : Bool)

/-- Number of state-file reads in a trace. -/
def countReads : List Event → Nat
  | [] => 0
  | Event.read :: rest => countReads rest + 1
  | _ :: rest => countReads rest

/-- Number of state-file writes in a trace. -/
def countWrites : List Event → Nat
  | [] => 0
  | Event.write _ :: rest => countWrites rest + 1
  | _ :: rest => countWrites rest

/-- Number of send attempts in a trace. -/
def countSends : List Event → Nat
  | [] => 0
  | Event.send _ _ :: rest => countSends rest + 1
  | _ :: rest => countSends rest

/-- The texts of the send attempts in a trace, in order. -/
def sendTexts : List Event → List Str
  | [] => []
  | Event.send text _ :: rest => text :: sendTexts rest
  | _ :: rest => sendTexts rest

/-- Effect of a trace on the state file: each write replaces its contents. -/
def applyWrites (fs : Option Yaml) : List Event → Option Yaml
  | [] => fs
  | Event.write y :: rest => applyWrites (some y) rest
  | _ :: rest => applyWrites fs rest

/-- True when no write event occurs in the trace. -/
def noWrite (evs : List Event) : Bool :=
  evs.all fun e => match e with
    | Event.write _ => false
    | _ => true

/-- True when no write event follows any send event: the file contents can
no longer change once the first send has been attempted. -/
def writesPrecedeSends : List Event → Bool
  | [] => true
  | Event.send _ _ :: rest => noWrite rest && writesPrecedeSends rest
  | _ :: rest => writesPrecedeSends rest

/-- The `for state in states.iter_mut()` loop of `update_state`
(`src/main.rs` lines 83‑105): sequentially fetch each item's url (any
`reqwest` failure aborts the whole loop via `?`), classify the item with its
rules, update `in_stock` in place and accumulate the `state_changed` flag.
Returns the loop outcome together with the fetch events it performed. -/
def pollStates (rmatch : Str → Str → Bool) (fetch : Str → Option Str) :
    List InventoryState → Except Error (List InventoryState × Bool) × List Event
  | [] => (Except.ok ([], false), [])
  | state :: rest =>
    match fetch state.url with
    | none => (Except.error Error.Reqwest, [Event.fetchUrl state.url])
    | some body =>
      let in_stock := compute_in_stock rmatch state.«matches» body
      let state' := { state with in_stock := in_stock }
      match pollStates rmatch fetch rest with
      | (Except.error e, evs) => (Except.error e, Event.fetchUrl state.url :: evs)
      | (Except.ok (rest', changedRest), evs) =>
        (Except.ok (state' :: rest', (state.in_stock != in_stock) || changedRest),
          Event.fetchUrl state.url :: evs)

/-- `update_state` (`src/main.rs` lines 77‑114): read the state file, parse
it, run the poll loop, and — only when some item's flag changed — serialize
and write the file back, returning the updated collection.  The second
component is the trace of file and network effects. -/
def update_state (rmatch : Str → Str → Bool) (fetch : Str → Option Str)
    (fs : Option Yaml) : Except Error MatchUpdate × List Event :=
  match fs with
  | none => (Except.error Error.IOError, [Event.read])
  | some y =>
    match fromYamlStates y with
    | none => (Except.error Error.SerdeYaml, [Event.read])
    | some states =>
      match pollStates rmatch fetch states with
      | (Except.error e, evs) => (Except.error e, Event.read :: evs)
      | (Except.ok (states', changed), evs) =>
        if changed then
          (Except.ok (MatchUpdate.Updated states'),
            Event.read :: (evs ++ [Event.write (toYamlStates states')]))
        else
          (Except.ok MatchUpdate.NoChange, Event.read :: evs)

/-- One formatted item line of the notification message
(`src/main.rs` lines 125‑136): `"\n{product} - [{vendor}]({url}) - {In Stock|Out of Stock}"`. -/
def item_line (state : InventoryState) : Str :=
  str "\n" ++ state.product ++ str " - [" ++ state.vendor ++ str "](" ++ state.url
    ++ str ") - "
    ++ (if state.in_stock then str "In Stock" else str "Out of Stock")

/-- The message `send_inventory_state` assembles (`src/main.rs` lines
122‑138): the header, one line per item appended in order, then
`data.replace("-", "\\-")` over the whole text. -/
def buildMessage (header : Str) (states : List InventoryState) : Str :=
  replaceAll (str "-") (str "\\-")
    (states.foldl (fun data state => data ++ item_line state) header)

/-- `send_inventory_state` (`src/main.rs` lines 116‑145): build the message
and attempt exactly one send; the result is only logged. -/
def send_inventory_state (send : Str → Bool) (header : Str)
    (states : List InventoryState) : List Event :=
  [Event.send (buildMessage header states) (send (buildMessage header states))]

/-- One iteration of the scheduling loop (`src/main.rs` lines 182‑197): run
`update_state`; on `Updated` send a `"State Changed"` message, on `NoChange`
or on error only log.  Returns the state-file contents after the tick and
the tick's trace. -/
def tick (rmatch : Str → Str → Bool) (fetch : Str → Option Str)
    (send : Str → Bool) (fs : Option Yaml) : Option Yaml × List Event :=
  match update_state rmatch fetch fs with
  | (Except.error _, evs) => (applyWrites fs evs, evs)
  | (Except.ok MatchUpdate.NoChange, evs) => (applyWrites fs evs, evs)
  | (Except.ok (MatchUpdate.Updated states'), evs) =>
    let evs' := evs ++ send_inventory_state send (str "State Changed") states'
    (applyWrites fs evs', evs')

/-- The startup block of `main` (`src/main.rs` lines 172‑176): read and
parse the state file (`unwrap` — any failure kills the process, modelled as
`none`), then send the `"Boot"` message. -/
def startup (send : Str → Bool) (fs : Option Yaml) : Option (List Event) :=
  match fs with
  | none => none
  | some y =>
    match fromYamlStates y with
    | none => none
    | some states =>
      some (Event.read :: send_inventory_state send (str "Boot") states)

/-- `n` iterations of the scheduling loop (`src/main.rs` lines 178‑199),
threading the state file through the ticks and concatenating their traces. -/
def loopTicks (rmatch : Str → Str → Bool) (fetch : Str → Option Str)
    (send : Str → Bool) : Nat → Option Yaml → Option Yaml × List Event
  | 0, fs => (fs, [])
  | n + 1, fs =>
    match tick rmatch fetch send fs with
    | (fs₁, evs₁) =>
      match loopTicks rmatch fetch send n fs₁ with
      | (fs₂, evs₂) => (fs₂, evs₁ ++ evs₂)

/-- The whole process (`main`, `src/main.rs` lines 147‑202) observed for `n`
ticks: the startup block, then the loop.  `none` means the process died
during startup. -/
def run (rmatch : Str → Str → Bool) (fetch : Str → Option Str)
    (send : Str → Bool) (fs : Option Yaml) (n : Nat) :
    Option (Option Yaml × List Event) :=
  match startup send fs with
  | none => none
  | some evs₀ =>
    match loopTicks rmatch fetch send n fs with
    | (fs', evs) => some (fs', evs₀ ++ evs)

/-- Spec-side rendering of the escape step, from the words of the spec: every
`'-'` character of the assembled text is replaced by the two characters
`"\\-"`, all other characters are kept. -/
def escapeDashes : Str → Str
  | [] => []
  | c :: rest => (if c = '-' then ['\\', '-'] else [c]) ++ escapeDashes rest

/-- Spec-side rendering of the notification message, from the words of the
spec: the header line followed by one line per item in list order, with
every dash of the assembled text escaped. -/
def specMessage (header : Str) (states : List InventoryState) : Str :=
  escapeDashes (header ++ (states.map item_line).flatten)

/-- Concrete regex engine used for evaluating the model on closed inputs: a
pattern "matches anywhere" iff it occurs as a literal substring. -/
def rmatch0 : Str → Str → Bool := fun p body => containsSub p body

/-- Concrete send oracle that always succeeds. -/
def send0 : Str → Bool := fun _ => true

/-- Concrete item: out of stock, one `Contains` rule. -/
def itemA : InventoryState :=
  InventoryState.mk (str "Widget") (str "Acme") (str "http://a") false
    [Match.Contains (str "Add to Cart")]

/-- Concrete item: in stock, no rules. -/
def itemB : InventoryState :=
  InventoryState.mk (str "Gadget") (str "Bob") (str "http://b") true []

/-- Concrete state-file contents holding `itemA` and `itemB`. -/
def yamlAB : Yaml := toYamlStates [itemA, itemB]

/-- Concrete fetch oracle that succeeds on both items' urls; the body for
`itemA` satisfies its rule. -/
def fetchOk : Str → Option Str := fun url =>
  if url = str "http://a" then some (str "xx Add to Cart yy")
  else if url = str "http://b" then some (str "irrelevant")
  else none

/-- Concrete fetch oracle that succeeds on `itemA`'s url and fails on
`itemB`'s url. -/
def fetchFailB : Str → Option Str := fun url =>
  if url = str "http://a" then some (str "xx Add to Cart yy") else none

/-- Concrete fetch oracle that always fails. -/
def fetchNone : Str → Option Str := fun _ => none

/-- `itemA` after a successful poll against a body satisfying its rule. -/
def itemA2 : InventoryState := { itemA with in_stock := true }

/-- Forget the derived `in_stock` flag of an item, keeping the externally
curated fields (`product`, `vendor`, `url`, `matches`). -/
def stripStock (s : InventoryState) : InventoryState := { s with in_stock := false }

/-- True when the trace consists of url fetches only. -/
def onlyFetches (evs : List Event) : Bool :=
  evs.all fun e => match e with
    | Event.fetchUrl _ => true
    | _ => false

theorem containsSub_iff_infix (needle hay : Str) :
    containsSub needle hay = true ↔ needle <:+: hay := by
  induction hay with
  | nil => simp [containsSub, List.infix_nil]
  | cons c rest ih =>
    simp [containsSub, List.isPrefixOf_iff_prefix, ih, List.infix_cons_iff]

theorem str_dash : str "-" = ['-'] := rfl

theorem str_esc : str "\\-" = ['\\', '-'] := rfl

theorem replaceAll_dash (s : Str) :
    replaceAll ['-'] ['\\', '-'] s = escapeDashes s := by
  induction s with
  | nil => simp [replaceAll, escapeDashes]
  | cons c rest ih =>
    rw [replaceAll]
    by_cases hc : c = '-'
    · subst hc
      rw [dif_pos (by simp [List.isPrefixOf])]
      simpa [escapeDashes] using ih
    · rw [dif_neg (by simp [List.isPrefixOf, Ne.symm hc])]
      simp [escapeDashes, hc, ih]

theorem foldl_item_line (header : Str) (states : List InventoryState) :
    states.foldl (fun data state => data ++ item_line state) header
      = header ++ (states.map item_line).flatten := by
  induction states generalizing header with
  | nil => simp
  | cons s rest ih => simp [ih, List.append_assoc]

/-- C1: each rule variant evaluates by the four-variant semantics (`Regex`
true iff the engine matches the pattern anywhere in the body, `NotRegex` its
negation, `Contains` true iff the body contains the substring,
`DoesNotContain` its negation), an item is classified in-stock iff all of
its rules evaluate true over the declared rule list, and an item with an
empty rule list is classified in-stock for every body. -/
theorem c1_rule_semantics (rmatch : Str → Str → Bool) (s : InventoryState)
    (body : Str) :
    (∀ p, eval_match rmatch body (Match.Regex p) = rmatch p body)
    ∧ (∀ p, eval_match rmatch body (Match.NotRegex p) = !(rmatch p body))
    ∧ (∀ t, eval_match rmatch body (Match.Contains t) = true ↔ t <:+: body)
    ∧ (∀ t, eval_match rmatch body (Match.DoesNotContain t) = true ↔
        ¬ t <:+: body)
    ∧ (compute_in_stock rmatch s.«matches» body = true ↔
        ∀ m ∈ s.«matches», eval_match rmatch body m = true)
    ∧ (s.«matches» = [] → compute_in_stock rmatch s.«matches» body = true) := by
  refine ⟨fun p => rfl, fun p => rfl, fun t => ?_, fun t => ?_, ?_, ?_⟩
  · simpa [eval_match] using containsSub_iff_infix t body
  · rw [← containsSub_iff_infix]
    simp [eval_match]
  · simp [compute_in_stock, List.all_eq_true]
  · intro h
    simp [compute_in_stock, h]

theorem c1_rule_semantics_witness :
    compute_in_stock rmatch0 itemB.«matches» (str "body") = true :=
  (c1_rule_semantics rmatch0 itemB (str "body")).2.2.2.2.2 rfl

theorem fromYamlMatch_toYamlMatch (m : Match) :
    fromYamlMatch (toYamlMatch m) = some m := by
  cases m <;> rfl

theorem fromYamlMatches_map (ms : List Match) :
    fromYamlMatches (ms.map toYamlMatch) = some ms := by
  induction ms with
  | nil => rfl
  | cons m rest ih => simp [fromYamlMatches, fromYamlMatch_toYamlMatch, ih]

theorem fromYamlState_toYamlState (s : InventoryState) :
    fromYamlState (toYamlState s) = some s := by
  obtain ⟨p, v, u, i, ms⟩ := s
  show (fromYamlMatches (ms.map toYamlMatch)).map
      (fun rules => InventoryState.mk p v u i rules)
    = some (InventoryState.mk p v u i ms)
  rw [fromYamlMatches_map]
  rfl

theorem fromYamlStatesList_map (C : List InventoryState) :
    fromYamlStatesList (C.map toYamlState) = some C := by
  induction C with
  | nil => rfl
  | cons s rest ih => simp [fromYamlStatesList, fromYamlState_toYamlState, ih]

/-- C5: serializing any inventory collection and deserializing the result
yields the same collection — item order, every field (`product`, `vendor`,
`url`, `in_stock`) and every match-rule variant with its pattern/substring
are preserved. -/
theorem c5_round_trip (C : List InventoryState) :
    fromYamlStates (toYamlStates C) = some C := by
  show fromYamlStatesList (C.map toYamlState) = some C
  exact fromYamlStatesList_map C

/-- C6: for every header and item list the notifier builds the single text
consisting of the header followed by one line per item in list order of the
form `"{product} - [{vendor}]({url}) - {In Stock|Out of Stock}"`, with every
dash of the assembled text (hyphens inside `product`, `vendor` or `url`
included) replaced by `"\\-"`, and it performs exactly one send. -/
theorem c6_notifier_message (send : Str → Bool) (header : Str)
    (states : List InventoryState) :
    buildMessage header states = specMessage header states
    ∧ send_inventory_state send header states
        = [Event.send (specMessage header states)
            (send (specMessage header states))]
    ∧ countSends (send_inventory_state send header states) = 1 := by
  have hmsg : buildMessage header states = specMessage header states := by
    unfold buildMessage specMessage
    rw [str_dash, str_esc, foldl_item_line, replaceAll_dash]
  refine ⟨hmsg, ?_, rfl⟩
  simp [send_inventory_state, hmsg]

theorem countReads_append (l₁ l₂ : List Event) :
    countReads (l₁ ++ l₂) = countReads l₁ + countReads l₂ := by
  induction l₁ with
  | nil => simp [countReads]
  | cons e rest ih => cases e <;> simp [countReads, ih] <;> omega

theorem countWrites_append (l₁ l₂ : List Event) :
    countWrites (l₁ ++ l₂) = countWrites l₁ + countWrites l₂ := by
  induction l₁ with
  | nil => simp [countWrites]
  | cons e rest ih => cases e <;> simp [countWrites, ih] <;> omega

theorem countSends_append (l₁ l₂ : List Event) :
    countSends (l₁ ++ l₂) = countSends l₁ + countSends l₂ := by
  induction l₁ with
  | nil => simp [countSends]
  | cons e rest ih => cases e <;> simp [countSends, ih] <;> omega

theorem sendTexts_append (l₁ l₂ : List Event) :
    sendTexts (l₁ ++ l₂) = sendTexts l₁ ++ sendTexts l₂ := by
  induction l₁ with
  | nil => simp [sendTexts]
  | cons e rest ih => cases e <;> simp [sendTexts, ih]

theorem applyWrites_append (fs : Option Yaml) (l₁ l₂ : List Event) :
    applyWrites fs (l₁ ++ l₂) = applyWrites (applyWrites fs l₁) l₂ := by
  induction l₁ generalizing fs with
  | nil => simp [applyWrites]
  | cons e rest ih => cases e <;> simp [applyWrites, ih]

theorem onlyFetches_spec (evs : List Event) (h : onlyFetches evs = true) :
    countReads evs = 0 ∧ countWrites evs = 0 ∧ countSends evs = 0
    ∧ sendTexts evs = [] ∧ (∀ fs, applyWrites fs evs = fs)
    ∧ ∀ y, ¬ Event.write y ∈ evs := by
  induction evs with
  | nil => simp [countReads, countWrites, countSends, sendTexts, applyWrites]
  | cons e rest ih =>
    cases e with
    | fetchUrl u =>
      have hrest : onlyFetches rest = true := by
        simpa [onlyFetches] using h
      obtain ⟨h1, h2, h3, h4, h5, h6⟩ := ih hrest
      exact ⟨by simp [countReads, h1], by simp [countWrites, h2],
        by simp [countSends, h3], by simp [sendTexts, h4],
        fun fs => by simp [applyWrites, h5 fs],
        fun y => by simp [h6 y]⟩
    | read => simp [onlyFetches] at h
    | write y => simp [onlyFetches] at h
    | send t ok => simp [onlyFetches] at h

theorem pollStates_onlyFetches (rmatch : Str → Str → Bool)
    (fetch : Str → Option Str) (states : List InventoryState) :
    onlyFetches (pollStates rmatch fetch states).2 = true := by
  induction states with
  | nil => rfl
  | cons s rest ih =>
    simp only [pollStates]
    cases hf : fetch s.url with
    | none => rfl
    | some body =>
      cases hp : pollStates rmatch fetch rest with
      | mk res evs =>
        rw [hp] at ih
        cases res with
        | error e => simpa [onlyFetches] using ih
        | ok pr =>
          obtain ⟨rest', ch⟩ := pr
          simpa [onlyFetches] using ih

theorem writesPrecedeSends_of_no_sends (evs : List Event)
    (h : countSends evs = 0) : writesPrecedeSends evs = true := by
  induction evs with
  | nil => rfl
  | cons e rest ih =>
    cases e with
    | send t ok => simp [countSends] at h
    | read => exact ih (by simpa [countSends] using h)
    | fetchUrl u => exact ih (by simpa [countSends] using h)
    | write y => exact ih (by simpa [countSends] using h)

theorem writesPrecedeSends_snoc_send (evs : List Event) (t : Str) (b : Bool)
    (h : countSends evs = 0) :
    writesPrecedeSends (evs ++ [Event.send t b]) = true := by
  induction evs with
  | nil => rfl
  | cons e rest ih =>
    cases e with
    | send u ok => simp [countSends] at h
    | read => exact ih (by simpa [countSends] using h)
    | fetchUrl u => exact ih (by simpa [countSends] using h)
    | write y => exact ih (by simpa [countSends] using h)

theorem pollStates_ok (rmatch : Str → Str → Bool) (fetch : Str → Option Str) :
    ∀ (states states' : List InventoryState) (changed : Bool) (evs : List Event),
    pollStates rmatch fetch states = (Except.ok (states', changed), evs) →
    states'.map stripStock = states.map stripStock
    ∧ (changed = true ↔ ∃ p ∈ states.zip states', p.1.in_stock ≠ p.2.in_stock) := by
  intro states
  induction states with
  | nil =>
    intro states' changed evs h
    simp only [pollStates, Prod.mk.injEq, Except.ok.injEq] at h
    obtain ⟨⟨h1, h2⟩, h3⟩ := h
    subst h1; subst h2
    simp
  | cons s rest ih =>
    intro states' changed evs h
    simp only [pollStates] at h
    cases hf : fetch s.url with
    | none => rw [hf] at h; simp at h
    | some body =>
      rw [hf] at h
      cases hp : pollStates rmatch fetch rest with
      | mk res evs2 =>
        rw [hp] at h
        cases res with
        | error e => simp at h
        | ok pr =>
          obtain ⟨rest', ch⟩ := pr
          simp only [Prod.mk.injEq, Except.ok.injEq] at h
          obtain ⟨⟨h1, h2⟩, h3⟩ := h
          subst h1; subst h2
          obtain ⟨f1, f2⟩ := ih rest' ch evs2 hp
          constructor
          · simp only [List.map_cons, f1]
            rfl
          · simp only [List.zip_cons_cons, List.mem_cons, Bool.or_eq_true,
              bne_iff_ne, ne_eq, f2]
            constructor
            · intro hor
              cases hor with
              | inl hne => exact ⟨(s, { s with in_stock := compute_in_stock rmatch s.«matches» body }), Or.inl rfl, hne⟩
              | inr hex =>
                obtain ⟨p, hmem, hne⟩ := hex
                exact ⟨p, Or.inr hmem, hne⟩
            · intro hex
              obtain ⟨p, hmem, hne⟩ := hex
              cases hmem with
              | inl heq => subst heq; exact Or.inl hne
              | inr hmem => exact Or.inr ⟨p, hmem, hne⟩

theorem pollStates_fail (rmatch : Str → Str → Bool) (fetch : Str → Option Str)
    (s : InventoryState) (post : List InventoryState) :
    ∀ pre : List InventoryState,
    (∀ t ∈ pre, (fetch t.url).isSome = true) → fetch s.url = none →
    pollStates rmatch fetch (pre ++ s :: post)
      = (Except.error Error.Reqwest,
          pre.map (fun t => Event.fetchUrl t.url) ++ [Event.fetchUrl s.url]) := by
  intro pre
  induction pre with
  | nil =>
    intro _ hfail
    simp only [List.nil_append, pollStates, hfail, List.map_nil]
  | cons t pre' ih =>
    intro hok hfail
    have ht : (fetch t.url).isSome = true := hok t (by simp)
    obtain ⟨b, hb⟩ := Option.isSome_iff_exists.mp ht
    have ih2 := ih (fun u hu => hok u (by simp [hu])) hfail
    simp only [List.cons_append, pollStates, hb, List.map_cons]
    rw [show pre'.append (s :: post) = pre' ++ s :: post from rfl, ih2]

/-- C2: when the fetch of one item fails (all earlier items' fetches having
succeeded), the whole poll cycle aborts: `update_state` propagates the
`reqwest` error, the trace shows that exactly the earlier items and the
failing item were fetched — later items are never fetched or evaluated — no
write and no send occurs, and the tick leaves the state file unchanged. -/
theorem c2_fetch_failure_aborts (rmatch : Str → Str → Bool)
    (fetch : Str → Option Str) (send : Str → Bool) (y : Yaml)
    (pre : List InventoryState) (s : InventoryState)
    (post : List InventoryState)
    (hparse : fromYamlStates y = some (pre ++ s :: post))
    (hok : ∀ t ∈ pre, (fetch t.url).isSome = true)
    (hfail : fetch s.url = none) :
    update_state rmatch fetch (some y)
      = (Except.error Error.Reqwest,
          Event.read :: (pre.map (fun t => Event.fetchUrl t.url)
            ++ [Event.fetchUrl s.url]))
    ∧ tick rmatch fetch send (some y)
      = (some y,
          Event.read :: (pre.map (fun t => Event.fetchUrl t.url)
            ++ [Event.fetchUrl s.url]))
    ∧ countWrites (tick rmatch fetch send (some y)).2 = 0
    ∧ countSends (tick rmatch fetch send (some y)).2 = 0 := by
  have hpoll := pollStates_fail rmatch fetch s post pre hok hfail
  have hof : onlyFetches (pre.map (fun t => Event.fetchUrl t.url)
      ++ [Event.fetchUrl s.url]) = true := by
    have h := pollStates_onlyFetches rmatch fetch (pre ++ s :: post)
    rw [hpoll] at h
    exact h
  obtain ⟨hr0, hw0, hs0, hst0, hap0, hnw0⟩ := onlyFetches_spec _ hof
  have hupd : update_state rmatch fetch (some y)
      = (Except.error Error.Reqwest,
          Event.read :: (pre.map (fun t => Event.fetchUrl t.url)
            ++ [Event.fetchUrl s.url])) := by
    simp only [update_state, hparse, hpoll]
  have htick : tick rmatch fetch send (some y)
      = (some y,
          Event.read :: (pre.map (fun t => Event.fetchUrl t.url)
            ++ [Event.fetchUrl s.url])) := by
    simp only [tick, hupd, applyWrites, hap0 (some y)]
  refine ⟨hupd, htick, ?_, ?_⟩
  · rw [htick]
    simp [countWrites, hw0]
  · rw [htick]
    simp [countSends, hs0]

theorem c2_fetch_failure_aborts_witness :
    tick rmatch0 fetchFailB send0 (some yamlAB)
      = (some yamlAB,
          Event.read :: ([itemA].map (fun t => Event.fetchUrl t.url)
            ++ [Event.fetchUrl itemB.url])) :=
  (c2_fetch_failure_aborts rmatch0 fetchFailB send0 yamlAB [itemA] itemB []
    rfl
    (by
      intro t ht
      simp only [List.mem_singleton] at ht
      subst ht
      rfl)
    rfl).2.1

/-- C3: a poll cycle over a parsed collection saves and sends iff some item's
newly computed stock status differs from its stored one: the `changed` flag
is true exactly when a stored/new pair disagrees on `in_stock`; when it is
false the file is untouched and nothing is sent; when it is true the file is
rewritten exactly once with the updated collection and exactly one
`"State Changed"` message listing the full updated collection is sent. -/
theorem c3_save_notify_iff_changed (rmatch : Str → Str → Bool)
    (fetch : Str → Option Str) (send : Str → Bool) (y : Yaml)
    (states states' : List InventoryState) (changed : Bool)
    (evs : List Event)
    (hparse : fromYamlStates y = some states)
    (hpoll : pollStates rmatch fetch states
      = (Except.ok (states', changed), evs)) :
    (changed = true ↔ ∃ p ∈ states.zip states', p.1.in_stock ≠ p.2.in_stock)
    ∧ (changed = false →
        update_state rmatch fetch (some y)
          = (Except.ok MatchUpdate.NoChange, Event.read :: evs)
        ∧ tick rmatch fetch send (some y) = (some y, Event.read :: evs)
        ∧ countWrites (tick rmatch fetch send (some y)).2 = 0
        ∧ countSends (tick rmatch fetch send (some y)).2 = 0)
    ∧ (changed = true →
        update_state rmatch fetch (some y)
          = (Except.ok (MatchUpdate.Updated states'),
              Event.read :: (evs ++ [Event.write (toYamlStates states')]))
        ∧ (tick rmatch fetch send (some y)).1 = some (toYamlStates states')
        ∧ countWrites (tick rmatch fetch send (some y)).2 = 1
        ∧ sendTexts (tick rmatch fetch send (some y)).2
            = [buildMessage (str "State Changed") states']) := by
  obtain ⟨hframe, hiff⟩ := pollStates_ok rmatch fetch states states' changed evs hpoll
  have hof := pollStates_onlyFetches rmatch fetch states
  rw [hpoll] at hof
  obtain ⟨hr0, hw0, hs0, hst0, hap0, hnw0⟩ := onlyFetches_spec evs hof
  refine ⟨hiff, ?_, ?_⟩
  · intro hch
    subst hch
    have hupd : update_state rmatch fetch (some y)
        = (Except.ok MatchUpdate.NoChange, Event.read :: evs) := by
      simp [update_state, hparse, hpoll]
    have htick : tick rmatch fetch send (some y) = (some y, Event.read :: evs) := by
      simp only [tick, hupd, applyWrites, hap0 (some y)]
    refine ⟨hupd, htick, ?_, ?_⟩
    · rw [htick]; simp [countWrites, hw0]
    · rw [htick]; simp [countSends, hs0]
  · intro hch
    subst hch
    have hupd : update_state rmatch fetch (some y)
        = (Except.ok (MatchUpdate.Updated states'),
            Event.read :: (evs ++ [Event.write (toYamlStates states')])) := by
      simp [update_state, hparse, hpoll]
    have htick : tick rmatch fetch send (some y)
        = (some (toYamlStates states'),
            (Event.read :: (evs ++ [Event.write (toYamlStates states')]))
              ++ send_inventory_state send (str "State Changed") states') := by
      simp only [tick, hupd]
      simp [send_inventory_state, applyWrites_append, applyWrites, hap0]
    refine ⟨hupd, ?_, ?_, ?_⟩
    · rw [htick]
    · rw [htick]
      simp [countWrites_append, countWrites, hw0, send_inventory_state]
    · rw [htick]
      simp [sendTexts_append, sendTexts, hst0, send_inventory_state]

theorem c3_save_notify_iff_changed_witness :
    countWrites (tick rmatch0 fetchOk send0 (some yamlAB)).2 = 1 :=
  ((c3_save_notify_iff_changed rmatch0 fetchOk send0 yamlAB
      [itemA, itemB] [itemA2, itemB] true
      [Event.fetchUrl (str "http://a"), Event.fetchUrl (str "http://b")]
      rfl rfl).2.2 rfl).2.2.1

/-- C9: a poll cycle that completes without error preserves the number and
order of items and every field other than `in_stock` (`product`, `vendor`,
`url`, `matches`), in memory and in what it writes: stripping the `in_stock`
flags, the new collection equals the old, and any file contents written by
the cycle are exactly the serialization of the updated collection. -/
theorem c9_cycle_preserves_frame (rmatch : Str → Str → Bool)
    (fetch : Str → Option Str) (y : Yaml)
    (states states' : List InventoryState) (changed : Bool)
    (evs : List Event)
    (hparse : fromYamlStates y = some states)
    (hpoll : pollStates rmatch fetch states
      = (Except.ok (states', changed), evs)) :
    states'.map stripStock = states.map stripStock
    ∧ states'.length = states.length
    ∧ ∀ y2, Event.write y2 ∈ (update_state rmatch fetch (some y)).2 →
        y2 = toYamlStates states' := by
  obtain ⟨hframe, _⟩ := pollStates_ok rmatch fetch states states' changed evs hpoll
  have hof := pollStates_onlyFetches rmatch fetch states
  rw [hpoll] at hof
  obtain ⟨hr0, hw0, hs0, hst0, hap0, hnw0⟩ := onlyFetches_spec evs hof
  refine ⟨hframe, ?_, ?_⟩
  · have h := congrArg List.length hframe
    simpa using h
  · intro y2 hy2
    cases hch : changed with
    | false =>
      rw [hch] at hpoll
      have hupd : update_state rmatch fetch (some y)
          = (Except.ok MatchUpdate.NoChange, Event.read :: evs) := by
        simp [update_state, hparse, hpoll]
      rw [hupd] at hy2
      simp only [List.mem_cons] at hy2
      cases hy2 with
      | inl h => exact absurd h (by simp)
      | inr h => exact absurd h (hnw0 y2)
    | true =>
      rw [hch] at hpoll
      have hupd : update_state rmatch fetch (some y)
          = (Except.ok (MatchUpdate.Updated states'),
              Event.read :: (evs ++ [Event.write (toYamlStates states')])) := by
        simp [update_state, hparse, hpoll]
      rw [hupd] at hy2
      simp only [List.mem_cons, List.mem_append, List.mem_singleton] at hy2
      cases hy2 with
      | inl h => exact absurd h (by simp)
      | inr h =>
        cases h with
        | inl h => exact absurd h (hnw0 y2)
        | inr h =>
          cases h with
          | inl h => exact Event.write.inj h
          | inr h => simp at h

theorem c9_cycle_preserves_frame_witness :
    List.map stripStock [itemA2, itemB] = List.map stripStock [itemA, itemB] :=
  (c9_cycle_preserves_frame rmatch0 fetchOk yamlAB
    [itemA, itemB] [itemA2, itemB] true
    [Event.fetchUrl (str "http://a"), Event.fetchUrl (str "http://b")]
    rfl rfl).1

theorem countReads_tick (rmatch : Str → Str → Bool) (fetch : Str → Option Str)
    (send : Str → Bool) (fs : Option Yaml) :
    countReads (tick rmatch fetch send fs).2 = 1 := by
  cases fs with
  | none => rfl
  | some y =>
    cases hy : fromYamlStates y with
    | none => simp [tick, update_state, hy, countReads]
    | some states =>
      have hof := pollStates_onlyFetches rmatch fetch states
      cases hp : pollStates rmatch fetch states with
      | mk res evs =>
        rw [hp] at hof
        obtain ⟨hr0, hw0, hs0, hst0, hap0, hnw0⟩ := onlyFetches_spec evs hof
        cases res with
        | error e => simp [tick, update_state, hy, hp, countReads, hr0]
        | ok u =>
          obtain ⟨states', ch⟩ := u
          cases ch with
          | false => simp [tick, update_state, hy, hp, countReads, hr0]
          | true =>
            simp [tick, update_state, hy, hp, countReads, countReads_append,
              hr0, send_inventory_state]

theorem countReads_loopTicks (rmatch : Str → Str → Bool)
    (fetch : Str → Option Str) (send : Str → Bool) :
    ∀ (n : Nat) (fs : Option Yaml),
    countReads (loopTicks rmatch fetch send n fs).2 = n := by
  intro n
  induction n with
  | zero => intro fs; rfl
  | succ k ih =>
    intro fs
    simp only [loopTicks]
    cases h1 : tick rmatch fetch send fs with
    | mk fs1 evs1 =>
      cases h2 : loopTicks rmatch fetch send k fs1 with
      | mk fs2 evs2 =>
        have e1 : countReads evs1 = 1 := by
          have h := countReads_tick rmatch fetch send fs
          rw [h1] at h
          exact h
        have e2 : countReads evs2 = k := by
          have h := ih fs1
          rw [h2] at h
          exact h
        simp [countReads_append, e1, e2, Nat.add_comm]

/-- C4 counterexample: the collection is NOT loaded from the state file
exactly once at startup.  Running the concrete process for two ticks
performs three state-file reads (one at startup, one at the start of each
poll cycle), not one. -/
theorem c4_counterexample :
    (run rmatch0 fetchNone send0 (some yamlAB) 2).map (fun p => countReads p.2)
      = some 3
    ∧ (run rmatch0 fetchNone send0 (some yamlAB) 2).map
        (fun p => countReads p.2) ≠ some 1 := by
  constructor
  · rfl
  · intro h
    rw [show (run rmatch0 fetchNone send0 (some yamlAB) 2).map
        (fun p => countReads p.2) = some 3 from rfl] at h
    simp at h

/-- C4 (amended): the state file is read once at startup (for the Boot
notification) and then re-read at the start of every poll cycle — a run of
`n` ticks performs `1 + n` reads, and every tick performs exactly one read
whatever the file contains; cycles operate on the collection parsed from
the file at that tick, not on an in-memory collection carried across
ticks. -/
theorem c4_state_file_reread (rmatch : Str → Str → Bool)
    (fetch : Str → Option Str) (send : Str → Bool) (y : Yaml)
    (states : List InventoryState) (n : Nat)
    (hparse : fromYamlStates y = some states) :
    (run rmatch fetch send (some y) n).map (fun p => countReads p.2)
      = some (1 + n)
    ∧ ∀ fs, countReads (tick rmatch fetch send fs).2 = 1 := by
  refine ⟨?_, fun fs => countReads_tick rmatch fetch send fs⟩
  simp only [run, startup, hparse]
  cases hl : loopTicks rmatch fetch send n (some y) with
  | mk fs2 evs =>
    have e2 : countReads evs = n := by
      have h := countReads_loopTicks rmatch fetch send n (some y)
      rw [hl] at h
      exact h
    simp [send_inventory_state, countReads_append, countReads, e2, Nat.add_comm]

theorem c4_state_file_reread_witness :
    (run rmatch0 fetchNone send0 (some yamlAB) 1).map (fun p => countReads p.2)
      = some (1 + 1) :=
  (c4_state_file_reread rmatch0 fetchNone send0 yamlAB [itemA, itemB] 1 rfl).1

/-- C7: whenever the persisted collection parses, the process trace starts
with the startup read followed immediately by one send of the `"Boot"`
message listing the whole persisted collection with its last-persisted
stock flags — before any fetch event can occur. -/
theorem c7_boot_notification (rmatch : Str → Str → Bool)
    (fetch : Str → Option Str) (send : Str → Bool) (y : Yaml)
    (states : List InventoryState) (n : Nat)
    (hparse : fromYamlStates y = some states) :
    ∃ fsn rest, run rmatch fetch send (some y) n
      = some (fsn, Event.read
          :: Event.send (buildMessage (str "Boot") states)
              (send (buildMessage (str "Boot") states)) :: rest) := by
  simp only [run, startup, hparse]
  cases hl : loopTicks rmatch fetch send n (some y) with
  | mk fs2 evs =>
    refine ⟨fs2, evs, ?_⟩
    simp [send_inventory_state]

theorem c7_boot_notification_witness :
    (∃ fsn rest, run rmatch0 fetchOk send0 (some (toYamlStates [itemB])) 0
      = some (fsn, Event.read
          :: Event.send (buildMessage (str "Boot") [itemB])
              (send0 (buildMessage (str "Boot") [itemB])) :: rest))
    ∧ buildMessage (str "Boot") [itemB]
        = str "Boot\nGadget \\- [Bob](http://b) \\- In Stock" := by
  constructor
  · exact c7_boot_notification rmatch0 fetchOk send0 (toYamlStates [itemB])
      [itemB] 0 rfl
  · unfold buildMessage
    rw [str_dash, str_esc, replaceAll_dash]
    decide

theorem update_state_sends (rmatch : Str → Str → Bool)
    (fetch : Str → Option Str) (fs : Option Yaml) :
    countSends (update_state rmatch fetch fs).2 = 0
    ∧ sendTexts (update_state rmatch fetch fs).2 = []
    ∧ countWrites (update_state rmatch fetch fs).2 ≤ 1 := by
  cases fs with
  | none => exact ⟨rfl, rfl, by simp [update_state, countWrites]⟩
  | some y =>
    cases hy : fromYamlStates y with
    | none => simp [update_state, hy, countSends, sendTexts, countWrites]
    | some states =>
      have hof := pollStates_onlyFetches rmatch fetch states
      cases hp : pollStates rmatch fetch states with
      | mk res evs =>
        rw [hp] at hof
        obtain ⟨hr0, hw0, hs0, hst0, hap0, hnw0⟩ := onlyFetches_spec evs hof
        cases res with
        | error e =>
          simp [update_state, hy, hp, countSends, sendTexts, countWrites,
            hs0, hst0, hw0]
        | ok u =>
          obtain ⟨states', ch⟩ := u
          cases ch with
          | false =>
            simp [update_state, hy, hp, countSends, sendTexts, countWrites,
              hs0, hst0, hw0]
          | true =>
            simp [update_state, hy, hp, countSends, sendTexts, countWrites,
              countSends_append, sendTexts_append, countWrites_append,
              hs0, hst0, hw0]

theorem tick_fst_send_irrelevant (rmatch : Str → Str → Bool)
    (fetch : Str → Option Str) (send send2 : Str → Bool) (fs : Option Yaml) :
    (tick rmatch fetch send fs).1 = (tick rmatch fetch send2 fs).1 := by
  cases hu : update_state rmatch fetch fs with
  | mk res evs =>
    cases res with
    | error e => simp [tick, hu]
    | ok u =>
      cases u with
      | NoChange => simp [tick, hu]
      | Updated states' =>
        simp [tick, hu, send_inventory_state, applyWrites_append, applyWrites]

theorem loopTicks_fst_send_irrelevant (rmatch : Str → Str → Bool)
    (fetch : Str → Option Str) (send send2 : Str → Bool) :
    ∀ (n : Nat) (fs : Option Yaml),
    (loopTicks rmatch fetch send n fs).1 = (loopTicks rmatch fetch send2 n fs).1 := by
  intro n
  induction n with
  | zero => intro fs; rfl
  | succ k ih =>
    intro fs
    simp only [loopTicks]
    cases h1 : tick rmatch fetch send fs with
    | mk a e1 =>
      cases h2 : tick rmatch fetch send2 fs with
      | mk b e2 =>
        have hab : a = b := by
          have h := tick_fst_send_irrelevant rmatch fetch send send2 fs
          rw [h1, h2] at h
          exact h
        subst hab
        cases h3 : loopTicks rmatch fetch send k a with
        | mk fs2 evs2 =>
          cases h4 : loopTicks rmatch fetch send2 k a with
          | mk fs2' evs2' =>
            have h5 := ih a
            rw [h3, h4] at h5
            exact h5

/-- C8: a failed notification send is swallowed: whatever success values the
messaging sink returns, the resulting state-file contents of the tick — and
of every longer run of the loop — are identical, the same message texts are
attempted, at most one send attempt happens per cycle, never a retry, and
within a tick's trace every file write precedes every send attempt, so a
send failure cannot undo or prevent the save. -/
theorem c8_send_failure_swallowed (rmatch : Str → Str → Bool)
    (fetch : Str → Option Str) (send send2 : Str → Bool) (fs : Option Yaml)
    (n : Nat) :
    (tick rmatch fetch send fs).1 = (tick rmatch fetch send2 fs).1
    ∧ sendTexts (tick rmatch fetch send fs).2
        = sendTexts (tick rmatch fetch send2 fs).2
    ∧ countSends (tick rmatch fetch send fs).2 ≤ 1
    ∧ writesPrecedeSends (tick rmatch fetch send fs).2 = true
    ∧ (loopTicks rmatch fetch send n fs).1
        = (loopTicks rmatch fetch send2 n fs).1 := by
  obtain ⟨hs0, hst0, hw1⟩ := update_state_sends rmatch fetch fs
  refine ⟨tick_fst_send_irrelevant rmatch fetch send send2 fs, ?_, ?_, ?_,
    loopTicks_fst_send_irrelevant rmatch fetch send send2 n fs⟩
  all_goals
    cases hu : update_state rmatch fetch fs with
    | mk res evs =>
      rw [hu] at hs0 hst0 hw1
      cases res with
      | error e =>
        simp [tick, hu, hs0, hst0]
        try exact writesPrecedeSends_of_no_sends evs hs0
      | ok u =>
        cases u with
        | NoChange =>
          simp [tick, hu, hs0, hst0]
          try exact writesPrecedeSends_of_no_sends evs hs0
        | Updated states' =>
          simp [tick, hu, send_inventory_state, sendTexts_append, sendTexts,
            countSends_append, countSends, hs0, hst0]
          try exact writesPrecedeSends_snoc_send evs _ _ hs0

/-- C10: after startup, a cycle that cannot read the state file or cannot
parse it aborts with the corresponding error, leaves the file as it was,
writes nothing, sends nothing, and the loop keeps ticking (`n` such cycles
produce exactly `n` lone read events); the same failures during the startup
load kill the process. -/
theorem c10_cycle_read_errors_nonfatal (rmatch : Str → Str → Bool)
    (fetch : Str → Option Str) (send : Str → Bool) (y : Yaml) (n : Nat)
    (hbad : fromYamlStates y = none) :
    update_state rmatch fetch none = (Except.error Error.IOError, [Event.read])
    ∧ tick rmatch fetch send none = (none, [Event.read])
    ∧ update_state rmatch fetch (some y)
        = (Except.error Error.SerdeYaml, [Event.read])
    ∧ tick rmatch fetch send (some y) = (some y, [Event.read])
    ∧ loopTicks rmatch fetch send n none = (none, List.replicate n Event.read)
    ∧ loopTicks rmatch fetch send n (some y)
        = (some y, List.replicate n Event.read)
    ∧ run rmatch fetch send none n = none
    ∧ run rmatch fetch send (some y) n = none := by
  have t1 : tick rmatch fetch send none = (none, [Event.read]) := rfl
  have u2 : update_state rmatch fetch (some y)
      = (Except.error Error.SerdeYaml, [Event.read]) := by
    simp [update_state, hbad]
  have t2 : tick rmatch fetch send (some y) = (some y, [Event.read]) := by
    simp [tick, u2, applyWrites]
  have l1 : ∀ m, loopTicks rmatch fetch send m none
      = (none, List.replicate m Event.read) := by
    intro m
    induction m with
    | zero => rfl
    | succ k ih => simp [loopTicks, t1, ih, List.replicate_succ]
  have l2 : ∀ m, loopTicks rmatch fetch send m (some y)
      = (some y, List.replicate m Event.read) := by
    intro m
    induction m with
    | zero => rfl
    | succ k ih => simp [loopTicks, t2, ih, List.replicate_succ]
  refine ⟨rfl, t1, u2, t2, l1 n, l2 n, rfl, ?_⟩
  simp [run, startup, hbad]

theorem c10_cycle_read_errors_nonfatal_witness :
    tick rmatch0 fetchNone send0 (some (Yaml.boolv true))
      = (some (Yaml.boolv true), [Event.read]) :=
  (c10_cycle_read_errors_nonfatal rmatch0 fetchNone send0 (Yaml.boolv true) 1
    rfl).2.2.2.1
